import Mathlib

/-!
Verification of the patient-admission scheduling core of the
Hospital-Management-System repository (file `HAS.py`).

The embedding below translates the classes `HospitalScheduler` and
`AnalyticsSystem`, and the administrative operation
`AppointmentPage.clear_appointment_history`, into Lean definitions.

Modelling conventions:
* Python's `heapq` library is modelled at its documented interface: the
  heap is represented by the list of its elements, `heappush` adds an
  element, and `heappop` removes and returns the smallest element under
  Python's tuple comparison (lexicographic on
  `(severity, sequence, name, department)`).
* A `datetime` value is modelled as a whole-second instant (`sec`)
  together with its sub-second microseconds (`usec`); the textual form
  produced by the format `%Y-%m-%d %H:%M:%S` determines exactly the
  whole-second instant, so the stored form keeps only `sec`.
* File contents are modelled by `Option SavedFile`: `none` stands for a
  missing, unreadable or unparsable file.  A performed write is reported
  explicitly in the return value of the operations that write.
-/

/-- A `datetime.now()` value: whole seconds plus sub-second microseconds.
The textual format `%Y-%m-%d %H:%M:%S` used by `save_appointments`
renders only the whole-second part. -/
structure Timestamp where
  sec : Nat
  usec : Nat
deriving DecidableEq

/-- A waiting-queue element: the Python tuple
`(severity, self.counter, name, department)` pushed by `add_patient`. -/
structure Entry where
  severity : Int
  sequence : Nat
  name : String
  department : String
deriving DecidableEq

/-- A served record: the Python tuple `(name, severity, department, timestamp)`
appended by `serve_patient`. -/
structure Served where
  name : String
  severity : Int
  department : String
  servedAt : Timestamp
deriving DecidableEq

/-- A served record as it appears in the JSON file: the timestamp is the
text `t.strftime('%Y-%m-%d %H:%M:%S')`, which denotes a whole-second
instant. -/
structure StoredServed where
  name : String
  severity : Int
  department : String
  time : Nat
deriving DecidableEq

/-- The JSON object written by `save_appointments`:
`{'date': ..., 'waiting': ..., 'counter': ..., 'served': ...}`. -/
structure SavedFile where
  date : String
  waiting : List Entry
  counter : Nat
  served : List StoredServed
deriving DecidableEq

/-- Serialization of one served record,
`(n, s, d, t.strftime('%Y-%m-%d %H:%M:%S'))`: drops the microseconds. -/
def storeServed (r : Served) : StoredServed :=
  ⟨r.name, r.severity, r.department, r.servedAt.sec⟩

/-- Deserialization of one served record,
`(n, s, d, datetime.strptime(t, '%Y-%m-%d %H:%M:%S'))`: the parsed
datetime has microseconds zero. -/
def parseServed (r : StoredServed) : Served :=
  ⟨r.name, r.severity, r.department, ⟨r.time, 0⟩⟩

/-- In-memory state of a `HospitalScheduler` object together with the
contents of its appointment file (`appointments_today.json`). -/
structure SchedState where
  pq : List Entry
  counter : Nat
  served_patients : List Served
  file : Option SavedFile
deriving DecidableEq

/-- `HospitalScheduler.save_appointments`: the JSON object written for
the current state (the write itself is recorded in the `file` field by
`doSave`). -/
def save_appointments (today : String) (s : SchedState) : SavedFile :=
  ⟨today, s.pq, s.counter, s.served_patients.map storeServed⟩

/-- Perform `save_appointments`: overwrite the file with the serialized
current state. -/
def doSave (today : String) (s : SchedState) : SchedState :=
  { s with file := some (save_appointments today s) }

/-- `HospitalScheduler.load_appointments`: read the file; if it parses
and its date is today, adopt its contents; otherwise reset to the empty
state and immediately save it.  The returned Bool records whether a save
was performed. -/
def load_appointments (today : String) (disk : Option SavedFile) :
    SchedState × Bool :=
  match disk with
  | some f =>
      if f.date = today then
        (⟨f.waiting, f.counter, f.served.map parseServed, disk⟩, false)
      else
        (doSave today ⟨[], 0, [], disk⟩, true)
  | none => (doSave today ⟨[], 0, [], none⟩, true)

/-- `HospitalScheduler.__init__`: fresh fields, then `load_appointments`. -/
def mkScheduler (today : String) (disk : Option SavedFile) : SchedState :=
  (load_appointments today disk).1

/-- Python tuple comparison key of a waiting entry:
`(severity, sequence, name, department)` ordered lexicographically. -/
def Entry.key (e : Entry) : Int ×ₗ Nat ×ₗ String ×ₗ String :=
  toLex (e.severity, toLex (e.sequence, toLex (e.name, e.department)))

/-- The `(severity, sequence)` prefix of the comparison key. -/
def Entry.pairKey (e : Entry) : Int ×ₗ Nat :=
  toLex (e.severity, e.sequence)

/-- `heapq.heappush`: the heap gains the pushed element (heap represented
by its element list). -/
def heappush (l : List Entry) (e : Entry) : List Entry :=
  l ++ [e]

/-- Smallest element of `e :: l` under Python tuple comparison. -/
def minEntry (e : Entry) (l : List Entry) : Entry :=
  l.foldl (fun a b => if b.key < a.key then b else a) e

/-- `heapq.heappop`: remove and return the smallest element; `none` on an
empty heap (the scheduler never pops an empty heap). -/
def heappop : List Entry → Option (Entry × List Entry)
  | [] => none
  | x :: xs => some (minEntry x xs, (x :: xs).erase (minEntry x xs))

/-- `HospitalScheduler.add_patient`: push
`(severity, self.counter, name, department)`, increment the counter,
save. -/
def add_patient (today : String) (name : String) (severity : Int)
    (department : String) (s : SchedState) : SchedState :=
  doSave today
    { s with
      pq := heappush s.pq ⟨severity, s.counter, name, department⟩,
      counter := s.counter + 1 }

/-- Result of one `HospitalScheduler.serve_patient` call: the state
afterwards, whether `save_appointments` ran, the severities passed to
`analytics.serve_patient_severity` (in order), and the returned string. -/
structure ServeResult where
  state : SchedState
  saved : Bool
  analyticsCalls : List Int
  message : String
deriving DecidableEq

/-- `HospitalScheduler.serve_patient`: if the queue is non-empty, pop the
heap minimum, append the served record stamped with the current time,
notify analytics when a hook is attached, save, and return the serving
message; otherwise return `"No patients in queue."` untouched. -/
def serve_patient (hook : Bool) (today : String) (now : Timestamp)
    (s : SchedState) : ServeResult :=
  match heappop s.pq with
  | some (e, rest) =>
      let s' : SchedState :=
        { pq := rest, counter := s.counter,
          served_patients :=
            s.served_patients ++ [⟨e.name, e.severity, e.department, now⟩],
          file := s.file }
      { state := doSave today s',
        saved := true,
        analyticsCalls := if hook then [e.severity] else [],
        message := "Serving: " ++ e.name ++ " (Severity: " ++
          toString e.severity ++ ", Department: " ++ e.department ++ ")" }
  | none =>
      { state := s, saved := false, analyticsCalls := [],
        message := "No patients in queue." }

/-- `AnalyticsSystem.serve_patient_severity`: decrement the tracked count
for `severity` only when `1 <= severity <= 10` and the count is positive
(the dict is modelled as a total function, `.get(severity, 0)` being
application). -/
def serve_patient_severity (counts : Int → Int) (severity : Int) :
    Int → Int :=
  if 1 ≤ severity ∧ severity ≤ 10 ∧ 0 < counts severity then
    fun k => if k = severity then counts severity - 1 else counts k
  else counts

/-- `AppointmentPage.clear_appointment_history`: clear the scheduler's
waiting queue, served list and counter, save, and reset the analytics
severity counts to zero. -/
def clear_appointment_history (today : String) (s : SchedState)
    (_analytics : Int → Int) : SchedState × (Int → Int) :=
  (doSave today ⟨[], 0, [], s.file⟩, fun _ => (0 : Int))

/-- One external event acting on a scheduler within a single day:
an `add_patient` call, a `serve_patient` call, or a process restart that
reconstructs the scheduler (running `load_appointments` on the current
file). -/
inductive Op where
  | add (name : String) (severity : Int) (department : String)
  | serve (now : Timestamp)
  | reload
deriving DecidableEq

/-- Apply one event to a state. -/
def step (today : String) (hook : Bool) (s : SchedState) : Op → SchedState
  | Op.add n sev d => add_patient today n sev d s
  | Op.serve now => (serve_patient hook today now s).state
  | Op.reload => (load_appointments today s.file).1

/-- Run a list of events from a state. -/
def run (today : String) (hook : Bool) (s : SchedState) :
    List Op → SchedState
  | [] => s
  | op :: ops => run today hook (step today hook s op) ops

/-- The sequence values assigned by the `add_patient` calls of an event
list, in call order (each call assigns the counter current at the call). -/
def assignedSeqs (today : String) (hook : Bool) (s : SchedState) :
    List Op → List Nat
  | [] => []
  | op :: ops =>
      match op with
      | Op.add _ _ _ => s.counter ::
          assignedSeqs today hook (step today hook s op) ops
      | _ => assignedSeqs today hook (step today hook s op) ops

/-- Number of `add_patient` events in a list. -/
def numAdds : List Op → Nat
  | [] => 0
  | Op.add _ _ _ :: ops => numAdds ops + 1
  | _ :: ops => numAdds ops

/-- The list `c, c+1, ..., c+n-1`. -/
def seqFrom : Nat → Nat → List Nat
  | _, 0 => []
  | c, n + 1 => c :: seqFrom (c + 1) n

/-- The file is in sync with the in-memory state: its contents are
exactly what `save_appointments` writes for this state today. -/
def Synced (today : String) (s : SchedState) : Prop :=
  s.file = some (save_appointments today s)

/-- C4: when the stored snapshot's date differs from today, or the file
is missing or unreadable, `load_appointments` yields the empty state
(empty waiting set, empty served log, counter 0) and immediately saves
that empty snapshot. -/
theorem load_stale_resets (today : String) (disk : Option SavedFile)
    (h : ∀ f, disk = some f → f.date ≠ today) :
    load_appointments today disk =
      (⟨[], 0, [], some ⟨today, [], 0, []⟩⟩, true) := by
  cases disk with
  | none => rfl
  | some f =>
      have hd : f.date ≠ today := h f rfl
      simp [load_appointments, hd, doSave, save_appointments]

/-- Witness for `load_stale_resets`: loading a missing file. -/
theorem load_stale_resets_witness :
    load_appointments "2026-10-12" none =
      (⟨[], 0, [], some ⟨"2026-10-12", [], 0, []⟩⟩, true) :=
  load_stale_resets "2026-10-12" none (fun _ h => Option.noConfusion h)

/-- C5: serving with an empty waiting set returns the explicit
`"No patients in queue."` result and leaves the served log unchanged. -/
theorem serve_empty_explicit_result (hook : Bool) (today : String)
    (now : Timestamp) (s : SchedState) (h : s.pq = []) :
    (serve_patient hook today now s).message = "No patients in queue." ∧
    (serve_patient hook today now s).state.served_patients
      = s.served_patients := by
  simp [serve_patient, heappop, h]

/-- Witness for `serve_empty_explicit_result`: a freshly constructed
scheduler (empty file) has an empty queue and an empty served log. -/
theorem serve_empty_explicit_result_witness :
    (serve_patient false "2026-10-12" ⟨0, 0⟩
        (mkScheduler "2026-10-12" none)).message = "No patients in queue." ∧
    (serve_patient false "2026-10-12" ⟨0, 0⟩
        (mkScheduler "2026-10-12" none)).state.served_patients
      = (mkScheduler "2026-10-12" none).served_patients :=
  serve_empty_explicit_result false "2026-10-12" ⟨0, 0⟩
    (mkScheduler "2026-10-12" none) rfl

/-- C10: on the empty-queue path, `serve_patient` leaves the whole state
unchanged, performs no save, and makes no analytics call. -/
theorem serve_empty_frame (hook : Bool) (today : String) (now : Timestamp)
    (s : SchedState) (h : s.pq = []) :
    (serve_patient hook today now s).state = s ∧
    (serve_patient hook today now s).saved = false ∧
    (serve_patient hook today now s).analyticsCalls = [] := by
  simp [serve_patient, heappop, h]

/-- Witness for `serve_empty_frame`: a state with a non-trivial counter,
served log and file is untouched. -/
theorem serve_empty_frame_witness :
    (serve_patient true "2026-10-12" ⟨9, 9⟩
        ⟨[], 3, [⟨"Ann", 5, "ER", ⟨7, 8⟩⟩], none⟩).state
      = ⟨[], 3, [⟨"Ann", 5, "ER", ⟨7, 8⟩⟩], none⟩ ∧
    (serve_patient true "2026-10-12" ⟨9, 9⟩
        ⟨[], 3, [⟨"Ann", 5, "ER", ⟨7, 8⟩⟩], none⟩).saved = false ∧
    (serve_patient true "2026-10-12" ⟨9, 9⟩
        ⟨[], 3, [⟨"Ann", 5, "ER", ⟨7, 8⟩⟩], none⟩).analyticsCalls = [] :=
  serve_empty_frame true "2026-10-12" ⟨9, 9⟩
    ⟨[], 3, [⟨"Ann", 5, "ER", ⟨7, 8⟩⟩], none⟩ rfl

/-- C9: `clear_appointment_history` empties the waiting set and the
served log, zeroes the counter, and persists exactly that cleared
snapshot. -/
theorem clear_resets_and_saves (today : String) (s : SchedState)
    (analytics : Int → Int) :
    (clear_appointment_history today s analytics).1.pq = [] ∧
    (clear_appointment_history today s analytics).1.served_patients = [] ∧
    (clear_appointment_history today s analytics).1.counter = 0 ∧
    (clear_appointment_history today s analytics).1.file
      = some ⟨today, [], 0, []⟩ := by
  simp [clear_appointment_history, doSave, save_appointments]

/-- C6: starting from any analytics state with all tracked counts
non-negative, every sequence of `serve_patient_severity` calls keeps all
counts non-negative. -/
theorem decrement_clamps_nonneg (counts : Int → Int)
    (h : ∀ k, 0 ≤ counts k) (calls : List Int) :
    ∀ k, 0 ≤ (calls.foldl serve_patient_severity counts) k := by
  induction calls generalizing counts with
  | nil => simpa using h
  | cons c cs ih =>
      simp only [List.foldl_cons]
      refine ih _ ?_
      intro k
      by_cases hP : 1 ≤ c ∧ c ≤ 10 ∧ 0 < counts c
      · simp only [serve_patient_severity, if_pos hP]
        by_cases hk : k = c
        · simp only [if_pos hk]
          have := hP.2.2
          omega
        · simp only [if_neg hk]
          exact h k
      · simp only [serve_patient_severity, if_neg hP]
        exact h k

/-- Witness for `decrement_clamps_nonneg`: repeated decrements of an
already-zero count stay at zero, not below. -/
theorem decrement_clamps_nonneg_witness :
    0 ≤ (List.foldl serve_patient_severity (fun _ => (0 : Int)) [5, 5, 5]) 5 :=
  decrement_clamps_nonneg (fun _ => 0) (fun _ => le_refl 0) [5, 5, 5] 5

/-- A served record with its timestamp truncated to a whole second, the
effect of writing it with `strftime('%Y-%m-%d %H:%M:%S')` and parsing it
back with `strptime`. -/
def truncServed (r : Served) : Served :=
  ⟨r.name, r.severity, r.department, ⟨r.servedAt.sec, 0⟩⟩

/-- C3 (amended): saving and loading on the same calendar date restores
the waiting entries and the counter exactly, and restores each served
record with its timestamp truncated to whole seconds (so the round-trip
is the identity exactly when no served timestamp carries a sub-second
component). -/
theorem save_load_roundtrip (today : String) (s : SchedState) :
    (load_appointments today (some (save_appointments today s))).1.pq
        = s.pq ∧
    (load_appointments today (some (save_appointments today s))).1.counter
        = s.counter ∧
    (load_appointments today (some (save_appointments today s))).1.served_patients
        = s.served_patients.map truncServed := by
  refine ⟨?_, ?_, ?_⟩ <;>
      simp [load_appointments, save_appointments, List.map_map]
  exact fun a _ => rfl

/-- A state whose single served record carries a non-zero microsecond
component, as `datetime.now()` produces. -/
def microState : SchedState :=
  ⟨[], 1, [⟨"Alice", 5, "ER", ⟨100, 1⟩⟩], none⟩

/-- C3 counterexample: a same-day save/load round-trip does not return
the served records unchanged when a timestamp has sub-second precision,
because the `'%Y-%m-%d %H:%M:%S'` format drops microseconds. -/
theorem save_load_roundtrip_cex :
    (load_appointments "2026-10-12"
        (some (save_appointments "2026-10-12" microState))).1.served_patients
      ≠ microState.served_patients := by
  decide

theorem minEntry_cons (e x : Entry) (xs : List Entry) :
    minEntry e (x :: xs) = minEntry (if x.key < e.key then x else e) xs :=
  rfl

theorem minEntry_mem : ∀ (l : List Entry) (e : Entry), minEntry e l ∈ e :: l := by
  intro l
  induction l with
  | nil => intro e; simp [minEntry]
  | cons x xs ih =>
      intro e
      rw [minEntry_cons]
      by_cases hx : x.key < e.key
      · rw [if_pos hx]
        exact List.mem_cons_of_mem e (ih x)
      · rw [if_neg hx]
        rcases List.mem_cons.mp (ih e) with h | h
        · rw [h]; exact List.mem_cons_self _ _
        · exact List.mem_cons_of_mem e (List.mem_cons_of_mem x h)

theorem minEntry_le : ∀ (l : List Entry) (e x : Entry),
    x ∈ e :: l → (minEntry e l).key ≤ x.key := by
  intro l
  induction l with
  | nil =>
      intro e x hx
      rcases List.mem_cons.mp hx with h | h
      · rw [h]; exact le_rfl
      · exact absurd h (List.not_mem_nil x)
  | cons y ys ih =>
      intro e x hx
      rw [minEntry_cons]
      rcases List.mem_cons.mp hx with h | h'
      · subst h
        by_cases hy : y.key < x.key
        · rw [if_pos hy]
          exact le_trans (ih y y (List.mem_cons_self _ _)) (le_of_lt hy)
        · rw [if_neg hy]
          exact ih x x (List.mem_cons_self _ _)
      · rcases List.mem_cons.mp h' with h | h
        · subst h
          by_cases hy : x.key < e.key
          · rw [if_pos hy]
            exact ih x x (List.mem_cons_self _ _)
          · rw [if_neg hy]
            exact le_trans (ih e e (List.mem_cons_self _ _)) (not_lt.mp hy)
        · by_cases hy : y.key < e.key
          · rw [if_pos hy]
            exact ih y x (List.mem_cons_of_mem y h)
          · rw [if_neg hy]
            exact ih e x (List.mem_cons_of_mem e h)

theorem key_le_split {a b : Entry} (h : a.key ≤ b.key) :
    a.pairKey < b.pairKey ∨
      (a.severity = b.severity ∧ a.sequence = b.sequence) := by
  unfold Entry.key at h
  unfold Entry.pairKey
  simp only [Prod.Lex.le_iff, Prod.Lex.lt_iff] at h ⊢
  rcases h with h | ⟨h1, h2⟩
  · exact Or.inl (Or.inl h)
  · rcases h2 with h2 | ⟨h2, _⟩
    · exact Or.inl (Or.inr ⟨h1, h2⟩)
    · exact Or.inr ⟨h1, h2⟩

/-- C1: on a non-empty waiting set (with the system invariant that
sequence values are pairwise distinct), `serve_patient` removes exactly
the entry whose `(severity, sequence)` pair is lexicographically
smallest, appends the corresponding served record to the served log, and
returns that entry's fields in its message. -/
theorem serveNextPatient_pops_min (hook : Bool) (today : String)
    (now : Timestamp) (s : SchedState) (hne : s.pq ≠ [])
    (hnd : (s.pq.map Entry.sequence).Nodup) :
    ∃ e, e ∈ s.pq ∧
      (∀ e' ∈ s.pq, e' ≠ e → e.pairKey < e'.pairKey) ∧
      (serve_patient hook today now s).state.pq = s.pq.erase e ∧
      (serve_patient hook today now s).state.served_patients
        = s.served_patients ++ [⟨e.name, e.severity, e.department, now⟩] ∧
      (serve_patient hook today now s).message
        = "Serving: " ++ e.name ++ " (Severity: " ++
            toString e.severity ++ ", Department: " ++ e.department ++ ")" := by
  obtain ⟨pq, counter, served, file⟩ := s
  simp only at hne hnd ⊢
  obtain ⟨x, xs, hx⟩ := List.exists_cons_of_ne_nil hne
  subst hx
  refine ⟨minEntry x xs, minEntry_mem xs x, ?_, rfl, rfl, rfl⟩
  intro e' he' hne'
  have hle : (minEntry x xs).key ≤ e'.key := minEntry_le xs x e' he'
  rcases key_le_split hle with h | ⟨_, h2⟩
  · exact h
  · exact absurd (List.inj_on_of_nodup_map hnd he'
      (minEntry_mem xs x) h2.symm) hne'

/-- The concrete scenario of the specification: A (severity 5), then B
(severity 3), then C (severity 3), with sequences 0, 1, 2. -/
def demoState : SchedState :=
  ⟨[⟨5, 0, "A", "ER"⟩, ⟨3, 1, "B", "ER"⟩, ⟨3, 2, "C", "ICU"⟩], 3, [], none⟩

/-- Witness for `serveNextPatient_pops_min` on the concrete scenario. -/
theorem serveNextPatient_pops_min_witness :
    ∃ e, e ∈ demoState.pq ∧
      (∀ e' ∈ demoState.pq, e' ≠ e → e.pairKey < e'.pairKey) ∧
      (serve_patient false "2026-10-12" ⟨0, 0⟩ demoState).state.pq
        = demoState.pq.erase e ∧
      (serve_patient false "2026-10-12" ⟨0, 0⟩ demoState).state.served_patients
        = demoState.served_patients
            ++ [⟨e.name, e.severity, e.department, ⟨0, 0⟩⟩] ∧
      (serve_patient false "2026-10-12" ⟨0, 0⟩ demoState).message
        = "Serving: " ++ e.name ++ " (Severity: " ++
            toString e.severity ++ ", Department: " ++ e.department ++ ")" :=
  serveNextPatient_pops_min false "2026-10-12" ⟨0, 0⟩ demoState
    (by decide) (by decide)

/-- C7: with an analytics hook attached, `serve_patient` makes exactly
one `serve_patient_severity` call per newly served record, carrying that
record's severity; the empty-queue path makes no call at all. -/
theorem serve_analytics_exactly_once (hook : Bool) (today : String)
    (now : Timestamp) (s : SchedState) :
    (hook = true →
      (serve_patient hook today now s).analyticsCalls =
        ((serve_patient hook today now s).state.served_patients.drop
            s.served_patients.length).map Served.severity) ∧
    (s.pq = [] → (serve_patient hook today now s).analyticsCalls = []) := by
  constructor
  · intro hh
    subst hh
    cases hpq : s.pq with
    | nil => simp [serve_patient, heappop, hpq]
    | cons x xs =>
        simp [serve_patient, hpq, heappop, doSave, List.drop_left]
  · intro hpq
    simp [serve_patient, heappop, hpq]

/-- A freshly constructed scheduler over an absent file. -/
def freshState : SchedState :=
  mkScheduler "2026-10-12" none

/-- Witness for `serve_analytics_exactly_once`: one call on a non-empty
queue with the hook attached, none on an empty queue. -/
theorem serve_analytics_exactly_once_witness :
    (serve_patient true "2026-10-12" ⟨0, 0⟩ demoState).analyticsCalls =
      ((serve_patient true "2026-10-12" ⟨0, 0⟩ demoState).state.served_patients.drop
          demoState.served_patients.length).map Served.severity ∧
    (serve_patient true "2026-10-12" ⟨0, 0⟩ freshState).analyticsCalls = [] :=
  ⟨(serve_analytics_exactly_once true "2026-10-12" ⟨0, 0⟩ demoState).1 rfl,
   (serve_analytics_exactly_once true "2026-10-12" ⟨0, 0⟩ freshState).2 rfl⟩

theorem storeServed_parseServed (r : StoredServed) :
    storeServed (parseServed r) = r :=
  rfl

theorem store_parse_map (l : List StoredServed) :
    (l.map parseServed).map storeServed = l := by
  induction l with
  | nil => rfl
  | cons x xs ih => simp [ih, storeServed, parseServed]

theorem synced_doSave (today : String) (s : SchedState) :
    Synced today (doSave today s) :=
  rfl

theorem mkScheduler_synced (today : String) (disk : Option SavedFile) :
    Synced today (mkScheduler today disk) := by
  unfold mkScheduler
  cases disk with
  | none => exact synced_doSave today _
  | some f =>
      obtain ⟨fd, fw, fc, fs⟩ := f
      by_cases hd : fd = today
      · subst hd
        unfold Synced
        simp [load_appointments, save_appointments, store_parse_map]
        rw [← List.map_map, store_parse_map]
      · simp only [load_appointments, if_neg hd]
        exact synced_doSave today _

theorem step_synced (today : String) (hook : Bool) (s : SchedState)
    (op : Op) (h : Synced today s) : Synced today (step today hook s op) := by
  cases op with
  | add n sev d => exact synced_doSave today _
  | serve now =>
      show Synced today (serve_patient hook today now s).state
      cases hpq : s.pq with
      | nil => simpa [serve_patient, heappop, hpq] using h
      | cons x xs =>
          simp only [serve_patient, hpq, heappop]
          exact synced_doSave today _
  | reload =>
      show Synced today (load_appointments today s.file).1
      rw [h]
      unfold Synced
      simp [load_appointments, save_appointments, store_parse_map,
        List.map_map]
      exact fun a _ => rfl

theorem step_counter_add (today : String) (hook : Bool) (s : SchedState)
    (n : String) (sev : Int) (d : String) :
    (step today hook s (Op.add n sev d)).counter = s.counter + 1 :=
  rfl

theorem step_counter_serve (today : String) (hook : Bool) (s : SchedState)
    (now : Timestamp) :
    (step today hook s (Op.serve now)).counter = s.counter := by
  show (serve_patient hook today now s).state.counter = s.counter
  cases hpq : s.pq with
  | nil => simp [serve_patient, heappop, hpq]
  | cons x xs => simp [serve_patient, heappop, hpq, doSave]

theorem step_counter_reload (today : String) (hook : Bool) (s : SchedState)
    (h : Synced today s) :
    (step today hook s Op.reload).counter = s.counter := by
  show (load_appointments today s.file).1.counter = s.counter
  rw [h]
  simp [load_appointments, save_appointments]

theorem run_append (today : String) (hook : Bool) :
    ∀ (l₁ l₂ : List Op) (s : SchedState),
      run today hook s (l₁ ++ l₂) = run today hook (run today hook s l₁) l₂ := by
  intro l₁
  induction l₁ with
  | nil => intro l₂ s; rfl
  | cons op ops ih => intro l₂ s; exact ih l₂ (step today hook s op)

theorem run_spec (today : String) (hook : Bool) :
    ∀ (ops : List Op) (s : SchedState), Synced today s →
      Synced today (run today hook s ops) ∧
      (run today hook s ops).counter = s.counter + numAdds ops ∧
      assignedSeqs today hook s ops = seqFrom s.counter (numAdds ops) := by
  intro ops
  induction ops with
  | nil => intro s h; exact ⟨h, rfl, rfl⟩
  | cons op ops ih =>
      intro s h
      have hstep := step_synced today hook s op h
      obtain ⟨h1, h2, h3⟩ := ih (step today hook s op) hstep
      cases op with
      | add n sev d =>
          refine ⟨h1, ?_, ?_⟩
          · show (run today hook (step today hook s (Op.add n sev d)) ops).counter
              = s.counter + (numAdds ops + 1)
            rw [h2, step_counter_add]
            omega
          · show s.counter ::
                assignedSeqs today hook (step today hook s (Op.add n sev d)) ops
              = seqFrom s.counter (numAdds ops + 1)
            rw [h3, step_counter_add]
            rfl
      | serve now =>
          refine ⟨h1, ?_, ?_⟩
          · show (run today hook (step today hook s (Op.serve now)) ops).counter
              = s.counter + numAdds ops
            rw [h2, step_counter_serve]
          · show assignedSeqs today hook (step today hook s (Op.serve now)) ops
              = seqFrom s.counter (numAdds ops)
            rw [h3, step_counter_serve]
      | reload =>
          refine ⟨h1, ?_, ?_⟩
          · show (run today hook (step today hook s Op.reload) ops).counter
              = s.counter + numAdds ops
            rw [h2, step_counter_reload today hook s h]
          · show assignedSeqs today hook (step today hook s Op.reload) ops
              = seqFrom s.counter (numAdds ops)
            rw [h3, step_counter_reload today hook s h]

theorem seqFrom_le_of_mem : ∀ (n c a : Nat), a ∈ seqFrom c n → c ≤ a := by
  intro n
  induction n with
  | zero => intro c a ha; exact absurd ha (List.not_mem_nil a)
  | succ m ih =>
      intro c a ha
      rcases List.mem_cons.mp ha with h | h
      · omega
      · have := ih (c + 1) a h
        omega

theorem seqFrom_pairwise : ∀ (n c : Nat), (seqFrom c n).Pairwise (· < ·) := by
  intro n
  induction n with
  | zero => intro c; exact List.Pairwise.nil
  | succ m ih =>
      intro c
      refine List.Pairwise.cons ?_ (ih (c + 1))
      intro a ha
      have := seqFrom_le_of_mem m (c + 1) a ha
      omega

theorem seqFrom_foldr_max : ∀ (n c : Nat),
    (seqFrom c (n + 1)).foldr max 0 = c + n := by
  intro n
  induction n with
  | zero =>
      intro c
      show max c 0 = c + 0
      omega
  | succ m ih =>
      intro c
      show max c ((seqFrom (c + 1) (m + 1)).foldr max 0) = c + (m + 1)
      rw [ih (c + 1)]
      omega

/-- C2: for any scheduler constructed today and any same-day interleaving
of adds, serves and reconstructions, the sequence values assigned by the
`add_patient` calls are strictly increasing in call order, hence pairwise
distinct. -/
theorem addPatient_seqs_strictly_increasing (today : String) (hook : Bool)
    (disk : Option SavedFile) (ops : List Op) :
    (assignedSeqs today hook (mkScheduler today disk) ops).Pairwise (· < ·) ∧
    (assignedSeqs today hook (mkScheduler today disk) ops).Nodup := by
  obtain ⟨-, -, h3⟩ :=
    run_spec today hook ops (mkScheduler today disk)
      (mkScheduler_synced today disk)
  rw [h3]
  exact ⟨seqFrom_pairwise _ _,
    (seqFrom_pairwise _ _).imp Nat.ne_of_lt⟩

/-- C8: starting from the day's first construction over an absent (or,
equivalently, stale) file, in every state reachable by adds, serves and
same-day reconstructions the counter equals the maximum sequence ever
assigned today plus one (zero when nothing was inserted), and the counter
never decreases as further events run. -/
theorem counter_eq_max_assigned_plus_one (today : String) (hook : Bool)
    (ops : List Op) :
    ((run today hook (mkScheduler today none) ops).counter =
      if (assignedSeqs today hook (mkScheduler today none) ops).isEmpty
      then 0
      else (assignedSeqs today hook (mkScheduler today none) ops).foldr
             max 0 + 1) ∧
    ∀ more : List Op,
      (run today hook (mkScheduler today none) ops).counter ≤
        (run today hook (mkScheduler today none) (ops ++ more)).counter := by
  obtain ⟨h1, h2, h3⟩ :=
    run_spec today hook ops (mkScheduler today none)
      (mkScheduler_synced today none)
  have hc0 : (mkScheduler today none).counter = 0 := rfl
  constructor
  · rw [h2, h3, hc0]
    cases hn : numAdds ops with
    | zero => simp [seqFrom]
    | succ m =>
        rw [seqFrom_foldr_max m 0]
        simp [seqFrom]
  · intro more
    rw [run_append today hook ops more]
    obtain ⟨-, h2', -⟩ :=
      run_spec today hook more (run today hook (mkScheduler today none) ops) h1
    rw [h2']
    exact Nat.le_add_right _ _
